import Mathlib

/-!
Shallow embedding of the Workflowgenie repository's initialization/readiness
subsystem (src/legacy/server_flask.py), task store (src/state/memory_store.py)
and model-client wrapper (src/llm.py), with theorems settling the spec claims.
-/

/-- A Python value as stored in task dictionaries and JSON bodies. -/
inductive PyVal where
  | vStr (s : String)
  | vInt (n : Int)
  | vBool (b : Bool)
  | vNone
deriving DecidableEq, Repr

/-- Python truthiness of a value (`bool(v)`). -/
def PyVal.truthy : PyVal → Bool
  | .vStr s => s ≠ ""
  | .vInt n => n ≠ 0
  | .vBool b => b
  | .vNone => false

/-- A Python dict with string keys, insertion-ordered (as Python dicts are). -/
abbrev Dict := List (String × PyVal)

/-- `d.get(k)`: first (unique, for real dicts) binding of `k`. -/
def dictGet (d : Dict) (k : String) : Option PyVal :=
  (d.find? (fun p => p.1 = k)).map Prod.snd

/-- `d[k] = v`: replace the binding in place if present, else append. -/
def dictSet (d : Dict) (k : String) (v : PyVal) : Dict :=
  if (d.find? (fun p => p.1 = k)).isSome then
    d.map (fun p => if p.1 = k then (k, v) else p)
  else d ++ [(k, v)]

/-- Python `old.update(new)`: fold the new bindings into the old dict.
This is the per-document effect of TinyDB's `table.update(fields, cond)`:
fields present in `new` overwrite, fields absent from `new` are kept. -/
def dictMerge (old new : Dict) : Dict :=
  new.foldl (fun d p => dictSet d p.1 p.2) old

/-- A TinyDB document: a dict of fields plus its table-assigned `doc_id`. -/
structure Doc where
  docId : Nat
  fields : Dict
deriving DecidableEq, Repr

/-- The Python whitespace characters removed by `str.strip()`. -/
def isPySpace (c : Char) : Bool :=
  c = ' ' || c = '\t' || c = '\n' || c = '\r' || c = '\x0b' || c = '\x0c'

/-- Python `s.strip()`. -/
def pyStrip (s : String) : String :=
  String.mk (((s.data.dropWhile isPySpace).reverse.dropWhile isPySpace).reverse)

/-- Python `s.lower()` (on the ASCII range used by the data model). -/
def pyLower (s : String) : String :=
  String.mk (s.data.map Char.toLower)

/-- `(t.get("title") or "")`: the title string, empty when missing/None. -/
def titleStr (d : Doc) : String :=
  match dictGet d.fields "title" with
  | some (.vStr s) => s
  | _ => ""

/-- `t.get("due") or "none"`: the due value with the `"none"` sentinel for
missing/falsy values. -/
def dueVal (d : Doc) : PyVal :=
  match dictGet d.fields "due" with
  | some v => if v.truthy then v else .vStr "none"
  | none => .vStr "none"

/-- `t.get("created_at") or ""`: the creation timestamp string (the data
model stores timestamps as strings), empty when missing/None. -/
def createdStr (d : Doc) : String :=
  match dictGet d.fields "created_at" with
  | some (.vStr s) => s
  | _ => ""

/-- The dedup key `((t.get("title") or "").strip().lower(), t.get("due") or "none")`. -/
def dkey (d : Doc) : String × PyVal :=
  (pyLower (pyStrip (titleStr d)), dueVal d)

/-- `table.remove(doc_ids=[i])`: drop the document with that doc id. -/
def removeDocId (table : List Doc) (i : Nat) : List Doc :=
  table.filter (fun d => d.docId ≠ i)

/-- The blank-title purge loop of `cleanup_on_startup`: iterate the snapshot
`all_tasks` (= the table itself) and remove each blank-titled doc by doc id. -/
def blankPurge (table : List Doc) : List Doc :=
  table.foldl
    (fun tbl t => if pyStrip (titleStr t) = "" then removeDocId tbl t.docId else tbl)
    table

/-- Lexicographic code-point order on character lists: Python's `<` on
strings. -/
def charListLt : List Char → List Char → Bool
  | [], [] => false
  | [], _ :: _ => true
  | _ :: _, [] => false
  | a :: as, b :: bs =>
      if a < b then true
      else if b < a then false
      else charListLt as bs

/-- Python `s1 < s2` on strings (lexicographic by code point). -/
def strLt (a b : String) : Bool :=
  charListLt a.data b.data

/-- `a ≤ b` in Python's string order, written as the negation of `strLt`. -/
def strLe (a b : String) : Bool :=
  !(strLt b a)

/-- State of the dedup scan: the `seen` dict (key order = insertion order,
as for a Python dict) and the accumulated `duplicates` list. -/
abbrev ScanState := List ((String × PyVal) × Doc) × List Doc

/-- One iteration of the dedup loop of `cleanup_on_startup` over task `t`
(the loop's local `key` is `dkey t`, its `created` is `createdStr t`). -/
def dedupStep (st : ScanState) (t : Doc) : ScanState :=
  match st.1.find? (fun p => p.1 = dkey t) with
  | some p =>
      if createdStr t ≠ "" ∧ createdStr p.2 ≠ "" then
        if strLt (createdStr t) (createdStr p.2) then
          (st.1.map (fun q => if q.1 = dkey t then (dkey t, t) else q), st.2 ++ [p.2])
        else (st.1, st.2 ++ [t])
      else (st.1, st.2 ++ [t])
  | none => (st.1 ++ [(dkey t, t)], st.2)

/-- The dedup scan over the (purged) task list in stored order. -/
def dedupScan (ts : List Doc) : ScanState :=
  ts.foldl dedupStep ([], [])

/-- `for d in duplicates: table.remove(doc_ids=[d.doc_id])`. -/
def removeAll (table : List Doc) (ds : List Doc) : List Doc :=
  ds.foldl (fun tbl d => removeDocId tbl d.docId) table

/-- `TaskMemory.cleanup_on_startup`: blank purge, then removal of the
duplicates found by scanning the purged table (`tasks = self.table.all()`
re-read after the purge). -/
def cleanup_on_startup (table : List Doc) : List Doc :=
  removeAll (blankPurge table) (dedupScan (blankPurge table)).2

/-- `Task.id == idv` holds of a document. -/
def idMatch (idv : PyVal) (d : Doc) : Bool :=
  dictGet d.fields "id" = some idv

/-- `table.contains(Task.id == idv)`. -/
def containsId (table : List Doc) (idv : PyVal) : Bool :=
  table.any (idMatch idv)

/-- `TaskMemory.store_task`: update (TinyDB merge) every doc matching the
task's id if one exists, else insert with the next doc id; `none` models the
`KeyError` raised by `task["id"]` when the id is absent. -/
def store_task (table : List Doc) (nextId : Nat) (task : Dict) : Option (List Doc) :=
  match dictGet task "id" with
  | none => none
  | some idv =>
      some (if containsId table idv then
              table.map (fun d => if idMatch idv d then ⟨d.docId, dictMerge d.fields task⟩ else d)
            else table ++ [⟨nextId, task⟩])

/-- `TaskMemory.clear_db`: drop the table. -/
def clear_db (_table : List Doc) : List Doc := []

/-! ## The Flask app's readiness coordinator (`create_app` / `_do_startup`) -/

/-- The readiness-relevant part of `app.config`. Component instances are
abstracted to `Option Unit`: a slot is `some ()` exactly when the code has
assigned a constructed component into it. -/
structure AppCfg where
  ready : Bool
  initInProgress : Bool
  initError : Option String
  tools : Option Unit
  memory : Option Unit
  llm : Option Unit
  workflow : Option Unit
deriving DecidableEq, Repr

/-- `app.config` as initialized in `create_app`. -/
def initCfg : AppCfg :=
  { ready := false, initInProgress := false, initError := none,
    tools := none, memory := none, llm := none, workflow := none }

/-- The tail of writes performed when a bootstrap step raises: the outer
`except` sets `READY = False` and `INIT_ERROR = str(e)` (abstracted to the
failing step's name) and the `finally` clears `INIT_IN_PROGRESS`. -/
def failTail (msg : String) : List (AppCfg → AppCfg) :=
  [fun c => { c with ready := false },
   fun c => { c with initError := some msg },
   fun c => { c with initInProgress := false }]

/-- The sequence of `app.config` writes performed by the body of
`_do_startup` after the in-progress guard, for the run in which step
failures are given by the four flags (tools, memory, llm, workflow). -/
def startupWrites (fT fM fL fW : Bool) : List (AppCfg → AppCfg) :=
  (fun c => { c with initInProgress := true }) ::
  (fun c => { c with initError := none }) ::
  (if fT then failTail "tools" else
    (fun c => { c with tools := some () }) ::
    (if fM then failTail "memory" else
      (fun c => { c with memory := some () }) ::
      (if fL then failTail "llm" else
        (fun c => { c with llm := some () }) ::
        (if fW then failTail "workflow" else
          [fun c => { c with workflow := some () },
           fun c => { c with ready := true },
           fun c => { c with initInProgress := false }]))))

/-- Apply a list of writes, recording every intermediate state. -/
def runWrites (c : AppCfg) : List (AppCfg → AppCfg) → List AppCfg
  | [] => []
  | w :: ws => w c :: runWrites (w c) ws

/-- The states a concurrent reader can observe during one `_do_startup` call
(empty when the in-progress guard returns immediately). -/
def startupTrace (fT fM fL fW : Bool) (c : AppCfg) : List AppCfg :=
  if c.initInProgress then [] else runWrites c (startupWrites fT fM fL fW)

/-- The state when `_do_startup` returns. -/
def startupFinal (fT fM fL fW : Bool) (c : AppCfg) : AppCfg :=
  (startupTrace fT fM fL fW c).getLastD c

/-- All four registry slots are populated. -/
def slotsPopulated (c : AppCfg) : Bool :=
  c.tools.isSome && c.memory.isSome && c.llm.isSome && c.workflow.isSome

/-! ## The racy in-progress guard of `_do_startup`, as an interleaving model

`_do_startup` begins with `if app.config.get("INIT_IN_PROGRESS"): return`
followed by `app.config["INIT_IN_PROGRESS"] = True`; the read and the write
are separate interpreter steps with no lock around them. -/

/-- Program counter of a thread running the guard of `_do_startup`. -/
inductive GuardPc where
  | atCheck
  | atSet
  | finished
deriving DecidableEq, Repr

/-- Two threads about to execute `_do_startup` concurrently; `launches`
counts threads that got past the guard and ran the bootstrap body. -/
structure RaceState where
  inProgress : Bool
  pcA : GuardPc
  pcB : GuardPc
  launches : Nat
deriving DecidableEq, Repr

/-- Initial race state: flag clear, both threads at the check. -/
def raceInit : RaceState :=
  { inProgress := false, pcA := .atCheck, pcB := .atCheck, launches := 0 }

/-- One atomic step of one thread: the check reads the flag (returning if it
is set), the set writes the flag and enters the bootstrap body. -/
def guardStep (flag : Bool) (pc : GuardPc) : GuardPc × Bool × Bool :=
  match pc with
  | .atCheck => if flag then (.finished, flag, false) else (.atSet, flag, false)
  | .atSet => (.finished, true, true)
  | .finished => (.finished, flag, false)

/-- Run one scheduled step (`true` = thread A, `false` = thread B). -/
def raceStep (s : RaceState) (who : Bool) : RaceState :=
  if who then
    let (pc, flag, launched) := guardStep s.inProgress s.pcA
    { s with pcA := pc, inProgress := flag,
             launches := s.launches + (if launched then 1 else 0) }
  else
    let (pc, flag, launched) := guardStep s.inProgress s.pcB
    { s with pcB := pc, inProgress := flag,
             launches := s.launches + (if launched then 1 else 0) }

/-- Run a whole schedule of thread steps. -/
def raceRun (s : RaceState) (sched : List Bool) : RaceState :=
  sched.foldl raceStep s

/-! ## The request pipeline (before-request hook and exempt routes) -/

/-- Server state seen by the request pipeline: the one-shot kick flag
`_background_init_kicked`, the coordinator config, and a counter of
background bootstrap threads started. -/
structure SrvState where
  kicked : Bool
  cfg : AppCfg
  bootLaunches : Nat
deriving DecidableEq, Repr

/-- `_kick_once_before_request`: runs on EVERY request path; on the first
request it sets the kick flag and, unless init is in progress or the app is
ready, starts a background `_do_startup` thread. -/
def kickOnceBeforeRequest (s : SrvState) : SrvState :=
  if s.kicked then s
  else
    let s1 := { s with kicked := true }
    if !s1.cfg.initInProgress && !s1.cfg.ready then
      { s1 with bootLaunches := s1.bootLaunches + 1 }
    else s1

/-- An HTTP response: status code and an abstract body tag. -/
structure Resp where
  status : Nat
  body : String
deriving DecidableEq, Repr

/-- The `/health` route handler: `jsonify({"status": "ok"})`, reading and
writing no coordinator state. -/
def healthHandler (_s : SrvState) : Resp :=
  { status := 200, body := "status ok" }

/-- The `/ready` route handler: reads `READY` and `INIT_ERROR` only. -/
def readyHandler (s : SrvState) : Resp :=
  if s.cfg.ready then { status := 200, body := "ready" }
  else { status := 503, body := "initializing" }

/-- Process one request on an exempt path: the before-request hook runs
first, then the route handler; the handler does not modify state. -/
def handleExempt (path : String) (s : SrvState) : Resp × SrvState :=
  let s1 := kickOnceBeforeRequest s
  if path = "/health" then (healthHandler s1, s1)
  else if path = "/ready" then (readyHandler s1, s1)
  else ({ status := 200, body := "index" }, s1)

/-- Fresh server state at process start. -/
def srvInit : SrvState :=
  { kicked := false, cfg := initCfg, bootLaunches := 0 }

/-! ## The `/clear_db` route -/

/-- `POST /clear_db`: `data = request.get_json(silent=True) or {}`; a falsy
`confirm` yields 400 with the store untouched, otherwise the store is
cleared. The handler performs no readiness check. -/
def clear_db_route (body : Option Dict) (store : List Doc) : Nat × List Doc :=
  let data := body.getD []
  if !(((dictGet data "confirm").getD .vNone).truthy) then (400, store)
  else (200, clear_db store)

/-! ## The model-client wrapper (`src/llm.py`) -/

/-- Python `s1 in s2` for strings. -/
def containsSub (s sub : String) : Bool :=
  decide (sub.data <:+: s.data)

/-- `LLM._fallback`: the deterministic local responder, a pure function of
the prompt text. -/
def fallback (prompt : String) : String :=
  let p := pyLower prompt
  if containsSub p "extract tasks" || (containsSub p "task" && containsSub p "json") then
    "[ \x7b\"title\": \"Sample task\", \"due\": \"2025-12-25T09:00:00\", \"priority\": \"Medium\"\x7d ]"
  else if containsSub p "schedule" || containsSub p "plan" then
    "\x7b\"events\": [ \x7b\"title\": \"Morning standup\", \"start_time\": \"2025-12-25T09:00:00\", \"duration_mins\": 30, \"notes\": \"\"\x7d, \x7b\"title\": \"Work on tasks\", \"start_time\": \"2025-12-25T09:30:00\", \"duration_mins\": 180, \"notes\": \"\"\x7d ], \"assumptions\": [\"Tasks prioritized by deadline\"] \x7d"
  else if containsSub p "weekly" || containsSub p "summary" || containsSub p "report" then
    "\x7b\"summary\": \"Productive week with steady progress\", \"completed_count\": 3, \"pending_count\": 2, \"top_actions\": [\"Continue current task\", \"Review next priorities\"] \x7d"
  else
    "\x7b\"status\": \"acknowledged\"\x7d"

/-- Instance state of an `LLM` object: `_remote_enabled` is `none` until the
first call probes `_ensure_genai()`. -/
structure LLMState where
  remoteEnabled : Option Bool
deriving DecidableEq, Repr

/-- `LLM.__call__`: `genaiOk` is the result of `_ensure_genai()` (false when
`GEMINI_API_KEY` is unset or the SDK import fails); `remote` is the
`_sync_generate` remote call, whose raised exceptions are modelled as
`Except.error`.  Every exception is caught and answered with the fallback,
disabling the remote for the instance. -/
def llmCall (genaiOk : Bool) (remote : String → Except String String)
    (st : LLMState) (prompt : String) : String × LLMState :=
  let enabled := st.remoteEnabled.getD genaiOk
  let st1 : LLMState := { remoteEnabled := some enabled }
  if !enabled then (fallback prompt, st1)
  else
    match remote prompt with
    | .ok s => (s, st1)
    | .error _ => (fallback prompt, { remoteEnabled := some false })

/-- `LLM.generate`: the async variant has the same control flow as
`__call__` (the `asyncio.to_thread` wrapper only moves the blocking call to
a thread). -/
def llmGenerate (genaiOk : Bool) (remote : String → Except String String)
    (st : LLMState) (prompt : String) : String × LLMState :=
  let enabled := st.remoteEnabled.getD genaiOk
  let st1 : LLMState := { remoteEnabled := some enabled }
  if !enabled then (fallback prompt, st1)
  else
    match remote prompt with
    | .ok s => (s, st1)
    | .error _ => (fallback prompt, { remoteEnabled := some false })

/-! ## Auxiliary predicates and sample records -/

/-- The table's doc ids are pairwise distinct (TinyDB assigns unique doc
ids). -/
def NodupIds (l : List Doc) : Prop :=
  (l.map Doc.docId).Nodup

/-- The documents currently held as values of the `seen` dict. -/
def seenDocs (st : ScanState) : List Doc :=
  st.1.map Prod.snd

/-- Invariant of the dedup scan after processing the prefix `processed`. -/
structure ScanInv (processed : List Doc) (st : ScanState) : Prop where
  perm : (seenDocs st ++ st.2).Perm processed
  keyOf : ∀ p ∈ st.1, dkey p.2 = p.1
  keysNodup : (st.1.map Prod.fst).Nodup
  covers : ∀ u ∈ processed, ∃ p ∈ st.1, p.1 = dkey u
  minCr : ∀ p ∈ st.1,
    (∀ u ∈ processed, dkey u = p.1 → createdStr u ≠ "") →
    ∀ u ∈ processed, dkey u = p.1 → strLe (createdStr p.2) (createdStr u) = true

/-- The spec's dedup-determinism record with the later `created_at` `"t1"`. -/
def milkT1 : Doc :=
  ⟨1, [("title", .vStr "Buy milk"), ("due", .vStr "2025-01-01"), ("created_at", .vStr "t1")]⟩

/-- The spec's dedup-determinism record with the earlier `created_at` `"t0"`
and the equivalent title `"buy milk "`. -/
def milkT0 : Doc :=
  ⟨2, [("title", .vStr "buy milk "), ("due", .vStr "2025-01-01"), ("created_at", .vStr "t0")]⟩

/-- A record with an empty title. -/
def blankEmpty : Doc := ⟨11, [("title", .vStr ""), ("id", .vInt 1)]⟩

/-- A record whose title is whitespace only. -/
def blankSpaces : Doc := ⟨12, [("title", .vStr "   "), ("id", .vInt 2)]⟩

/-- A record with no title field at all. -/
def noTitle : Doc := ⟨13, [("id", .vInt 3)]⟩

/-- A well-formed record that survives normalization. -/
def okTask : Doc := ⟨14, [("title", .vStr "write report"), ("id", .vInt 4)]⟩

/-- An existing stored record with an extra field `"extra"`. -/
def exDoc : Doc := ⟨1, [("id", .vInt 1), ("title", .vStr "a"), ("extra", .vStr "x")]⟩

/-- An upsert payload for the same id that omits the `"extra"` field. -/
def exTask : Dict := [("id", .vInt 1), ("title", .vStr "b")]

/-! ## Claim theorems: coordinator -/

/-- C1: the in-progress guard of `_do_startup` is a plain check-then-set
with no lock.  Under the serial schedule (A checks, A sets, B checks) only
one bootstrap body runs, but under the interleaving (A checks, B checks,
A sets, B sets) both threads observe the flag clear and both run the
bootstrap body: the check and the set do not form one atomic transition,
so two concurrent callers can both launch a bootstrap, contradicting the
single-flight property the spec requires. -/
theorem c1_guard_not_atomic :
    (raceRun raceInit [true, true, false]).launches = 1 ∧
    (raceRun raceInit [true, false, true, false]).launches = 2 := by
  decide

/-- C2: publish-before-flag ordering.  In every execution of `_do_startup`
— any combination of step failures, both for a first bootstrap attempt from
the freshly created config and for a retry attempt after a failed one —
every intermediate state a concurrent reader can observe satisfies: if
`READY` is true then all four registry slots (tools, memory, llm, workflow)
are populated. -/
theorem c2_publish_before_ready :
    ∀ fT fM fL fW gT gM gL gW : Bool,
      (∀ s ∈ startupTrace fT fM fL fW initCfg,
          s.ready = true → slotsPopulated s = true) ∧
      (∀ s ∈ startupTrace gT gM gL gW (startupFinal fT fM fL fW initCfg),
          s.ready = true → slotsPopulated s = true) := by
  decide

/-- Witness for C2: the state right after the success path sets `READY`
occurs in the fully-successful trace and indeed has all slots populated. -/
theorem c2_publish_before_ready_witness :
    slotsPopulated
      { ready := true, initInProgress := true, initError := none,
        tools := some (), memory := some (), llm := some (),
        workflow := some () } = true := by
  exact (c2_publish_before_ready false false false false false false false false).1
    { ready := true, initInProgress := true, initError := none,
      tools := some (), memory := some (), llm := some (), workflow := some () }
    (by decide) (by decide)

/-- C3 counterexample: run `_do_startup` from the empty initial registry
with the memory step failing.  The attempt fails (`INIT_ERROR` set, not
ready), the remaining steps are skipped, but the tools slot — populated
before the failing step — is NOT discarded: the registry is left with a
populated slot, contradicting the claim that after a failed attempt from an
empty registry every slot is still unpopulated. -/
theorem c3_counterexample :
    (startupFinal false true false false initCfg).ready = false ∧
    (startupFinal false true false false initCfg).initError = some "memory" ∧
    (startupFinal false true false false initCfg).tools = some () := by
  decide

/-- C3 (amended): from the empty initial state, a failing step aborts the
remaining steps and `_do_startup` ends not-ready with the failing step's
error captured and the in-progress flag cleared — every exit path ends in
exactly one of Ready or Failed — but registry slots populated before the
failing step remain populated; only the slots from the failing step onward
stay empty.  On full success all slots are populated and `READY` is set. -/
theorem c3_failure_keeps_earlier_slots :
    ∀ fT fM fL fW : Bool,
      startupFinal fT fM fL fW initCfg =
        (if fT then
          { initCfg with initError := some "tools" }
         else if fM then
          { initCfg with tools := some (), initError := some "memory" }
         else if fL then
          { initCfg with tools := some (), memory := some (),
                         initError := some "llm" }
         else if fW then
          { initCfg with tools := some (), memory := some (), llm := some (),
                         initError := some "workflow" }
         else
          { initCfg with tools := some (), memory := some (), llm := some (),
                         workflow := some (), ready := true }) := by
  decide

/-! ## Claim theorems: request pipeline -/

/-- The before-request hook never changes the coordinator config. -/
theorem kickOnce_cfg (s : SrvState) : (kickOnceBeforeRequest s).cfg = s.cfg := by
  unfold kickOnceBeforeRequest
  by_cases hk : s.kicked
  · simp [hk]
  · simp only [hk, Bool.false_eq_true, if_false]
    split <;> rfl

/-- Whatever the path, the state after a request is the state left by the
before-request hook: exempt handlers do not write state. -/
theorem handleExempt_snd (p : String) (s : SrvState) :
    (handleExempt p s).2 = kickOnceBeforeRequest s := by
  unfold handleExempt
  by_cases h1 : p = "/health" <;> by_cases h2 : p = "/ready" <;> simp [h1, h2]

/-- C6 counterexample: the very first request to the process is
`GET /health` from the fresh server state.  It is answered 200 as always,
but the request DOES start a background bootstrap attempt (the launch
counter goes from 0 to 1): the before-request hook registered by
`create_app` runs on every path with no exempt-path check, so an exempt
request can trigger the bootstrap, contradicting the claim. -/
theorem c6_counterexample :
    (handleExempt "/health" srvInit).1 = { status := 200, body := "status ok" } ∧
    srvInit.bootLaunches = 0 ∧
    (handleExempt "/health" srvInit).2.bootLaunches = 1 := by
  decide

/-- C6 (amended): an exempt request is answered immediately from the current
state — `/health` is 200 unconditionally — and never changes the
coordinator's readiness/registry config nor blocks on bootstrap; after the
first request has been processed (kick flag set), further requests on any
path leave the server state entirely unchanged; but the very first request
to the process, on ANY path including `GET /health`, sets the kick flag and
starts one background bootstrap attempt when the coordinator is neither in
progress nor ready. -/
theorem c6_exempt_paths (s : SrvState) (p : String) :
    (handleExempt "/health" s).1 = { status := 200, body := "status ok" } ∧
    (handleExempt p s).2.cfg = s.cfg ∧
    (s.kicked = true → (handleExempt p s).2 = s) ∧
    (s.kicked = false → s.cfg.initInProgress = false → s.cfg.ready = false →
      (handleExempt p s).2 =
        { s with kicked := true, bootLaunches := s.bootLaunches + 1 }) := by
  refine ⟨?_, ?_, ?_, ?_⟩
  · simp [handleExempt, healthHandler]
  · rw [handleExempt_snd, kickOnce_cfg]
  · intro hk
    rw [handleExempt_snd]
    unfold kickOnceBeforeRequest
    simp [hk]
  · intro hk hip hr
    rw [handleExempt_snd]
    unfold kickOnceBeforeRequest
    simp [hk, hip, hr]

/-- Witness for C6 (amended): once the kick flag is set, a `/ready` request
leaves the server state unchanged, and a first `/health` request from the
fresh state launches exactly one bootstrap attempt. -/
theorem c6_exempt_paths_witness :
    (handleExempt "/ready" { srvInit with kicked := true }).2
        = { srvInit with kicked := true } ∧
    (handleExempt "/health" srvInit).2 =
        { srvInit with kicked := true, bootLaunches := 1 } := by
  constructor
  · exact (c6_exempt_paths { srvInit with kicked := true } "/ready").2.2.1 rfl
  · exact (c6_exempt_paths srvInit "/health").2.2.2 rfl rfl rfl

/-- C7 counterexample: `POST /clear_db` with body `{"confirm": "false"}` —
a confirm value that is NOT `true` (it is the nonempty string `"false"`,
truthy in Python) — clears the store: it is not the case that only a body
with `confirm == true` clears the store. -/
theorem c7_counterexample :
    clear_db_route (some [("confirm", .vStr "false")]) [milkT1] = (200, []) ∧
    PyVal.vStr "false" ≠ PyVal.vBool true ∧
    ([milkT1] : List Doc) ≠ [] := by
  decide

/-- C7 (amended): `POST /clear_db` with body `{}` (or no JSON body, or
`{"confirm": false}`) returns 400 and leaves every record untouched, and
`{"confirm": true}` clears the store; in general the store is cleared
exactly when the body's `confirm` value is truthy in Python's sense (so any
truthy value, not only `true`, clears it).  The route performs no readiness
check (its embedding reads no readiness state at all). -/
theorem c7_clear_db_guard (body : Option Dict) (store : List Doc) :
    clear_db_route none store = (400, store) ∧
    clear_db_route (some []) store = (400, store) ∧
    clear_db_route (some [("confirm", .vBool false)]) store = (400, store) ∧
    clear_db_route (some [("confirm", .vBool true)]) store = (200, []) ∧
    (clear_db_route body store
      = if ((dictGet (body.getD []) "confirm").getD .vNone).truthy
        then (200, []) else (400, store)) := by
  refine ⟨rfl, rfl, rfl, rfl, ?_⟩
  unfold clear_db_route clear_db
  by_cases h : ((dictGet (body.getD []) "confirm").getD .vNone).truthy = true
  · simp [h]
  · simp [Bool.not_eq_true] at h
    simp [h]

/-! ## Claim theorem: model client -/

/-- C10: totality and determinism of the model-client surface.  For every
configuration, remote behaviour (including a raising remote call, modelled
as `Except.error`) and instance state, `__call__` and `generate` return a
string that is either a remote success value or the deterministic local
fallback — an error never escapes.  In the no-SDK configuration
(`_ensure_genai()` false) a fresh instance answers with the fallback, a
pure function of the prompt, and a second call with the same prompt on the
resulting state returns the same string. -/
theorem c10_llm_total_and_deterministic (genaiOk : Bool)
    (remote : String → Except String String) (st : LLMState) (p : String) :
    ((llmCall genaiOk remote st p).1 = fallback p ∨
      ∃ s, remote p = .ok s ∧ (llmCall genaiOk remote st p).1 = s) ∧
    ((llmGenerate genaiOk remote st p).1 = fallback p ∨
      ∃ s, remote p = .ok s ∧ (llmGenerate genaiOk remote st p).1 = s) ∧
    (llmCall false remote ⟨none⟩ p).1 = fallback p ∧
    (llmCall false remote (llmCall false remote ⟨none⟩ p).2 p).1
        = (llmCall false remote ⟨none⟩ p).1 ∧
    (llmGenerate false remote ⟨none⟩ p).1 = fallback p := by
  refine ⟨?_, ?_, rfl, rfl, rfl⟩
  · unfold llmCall
    by_cases he : st.remoteEnabled.getD genaiOk
    · simp only [he]
      cases hr : remote p <;> simp [hr]
    · simp [he]
  · unfold llmGenerate
    by_cases he : st.remoteEnabled.getD genaiOk
    · simp only [he]
      cases hr : remote p <;> simp [hr]
    · simp [he]

/-! ## Dict lemmas and claim C5 (`store_task`) -/

/-- Looking up a key that is bound nowhere yields `none`. -/
theorem dictGet_eq_none_of_not_mem (d : Dict) (k : String)
    (h : k ∉ d.map Prod.fst) : dictGet d k = none := by
  unfold dictGet
  cases hfd : d.find? (fun p => p.1 = k) with
  | none => rfl
  | some p =>
      have hp := List.find?_some hfd
      have hmem := List.mem_of_find?_eq_some hfd
      simp only [decide_eq_true_eq] at hp
      exact absurd (hp ▸ List.mem_map_of_mem Prod.fst hmem) h

/-- Lookup in a cons-cell dict. -/
theorem dictGet_cons (k0 : String) (v0 : PyVal) (d : Dict) (k : String) :
    dictGet ((k0, v0) :: d) k = if k0 = k then some v0 else dictGet d k := by
  unfold dictGet
  by_cases h : k0 = k
  · rw [List.find?_cons_of_pos _ (by simpa using h), if_pos h]
    rfl
  · rw [List.find?_cons_of_neg _ (by simpa using h), if_neg h]

/-- After an in-place assignment of key `k`, looking up `k` finds the new
value (case where the key was already bound). -/
theorem find?_map_set_self (d : Dict) (k : String) (v : PyVal) :
    (d.find? (fun p => p.1 = k)).isSome = true →
    (d.map (fun p => if p.1 = k then (k, v) else p)).find? (fun p => p.1 = k)
      = some (k, v) := by
  induction d with
  | nil => intro h; simp at h
  | cons p d ih =>
      intro h
      by_cases hp : p.1 = k
      · simp only [List.map_cons, if_pos hp]
        exact List.find?_cons_of_pos _ (by simp)
      · simp only [List.map_cons, if_neg hp]
        rw [List.find?_cons_of_neg _ (by simpa using hp)]
        apply ih
        rw [List.find?_cons_of_neg _ (by simpa using hp)] at h
        exact h

/-- An in-place assignment of key `k` does not affect lookups of other
keys. -/
theorem find?_map_set_ne (d : Dict) (k : String) (v : PyVal) (k2 : String)
    (hne : k2 ≠ k) :
    (d.map (fun p => if p.1 = k then (k, v) else p)).find? (fun p => p.1 = k2)
      = d.find? (fun p => p.1 = k2) := by
  induction d with
  | nil => rfl
  | cons p d ih =>
      have hk2 : ¬((k : String) = k2) := fun h => hne h.symm
      by_cases hp : p.1 = k
      · have hpk2 : ¬(p.1 = k2) := by rw [hp]; exact hk2
        simp only [List.map_cons, if_pos hp]
        rw [List.find?_cons_of_neg _ (by simpa using hk2),
            List.find?_cons_of_neg _ (by simpa using hpk2)]
        exact ih
      · simp only [List.map_cons, if_neg hp]
        by_cases hp2 : p.1 = k2
        · rw [List.find?_cons_of_pos _ (by simpa using hp2),
              List.find?_cons_of_pos _ (by simpa using hp2)]
        · rw [List.find?_cons_of_neg _ (by simpa using hp2),
              List.find?_cons_of_neg _ (by simpa using hp2)]
          exact ih

/-- Characterization of Python `d[k] = v` through lookups. -/
theorem dictGet_dictSet (d : Dict) (k : String) (v : PyVal) (k2 : String) :
    dictGet (dictSet d k v) k2 = if k2 = k then some v else dictGet d k2 := by
  unfold dictSet
  by_cases hmem : (d.find? (fun p => p.1 = k)).isSome = true
  · rw [if_pos hmem]
    by_cases hk : k2 = k
    · subst hk
      unfold dictGet
      rw [find?_map_set_self d k2 v hmem, if_pos rfl]
      rfl
    · unfold dictGet
      rw [find?_map_set_ne d k v k2 hk, if_neg hk]
  · rw [if_neg hmem]
    unfold dictGet
    rw [List.find?_append]
    by_cases hk : k2 = k
    · subst hk
      have hnone : d.find? (fun p => p.1 = k2) = none := by
        cases hfd : d.find? (fun p => p.1 = k2)
        · rfl
        · exact absurd (by rw [hfd]; rfl) hmem
      rw [hnone, if_pos rfl]
      simp [List.find?]
    · cases hfd : d.find? (fun p => p.1 = k2)
      · rw [if_neg hk]
        simp [List.find?, Ne.symm hk, hfd]
      · rw [if_neg hk]
        simp [hfd]

/-- TinyDB-update semantics of the per-document merge: a key bound in the
new fields takes the new value, any other key keeps the old document's
value.  (`new` is a Python dict, so its keys are distinct.) -/
theorem dictGet_dictMerge (new : Dict) :
    ∀ (old : Dict) (k : String), (new.map Prod.fst).Nodup →
      dictGet (dictMerge old new) k =
        match dictGet new k with
        | some v => some v
        | none => dictGet old k := by
  induction new with
  | nil => intro old k _; rfl
  | cons p rest ih =>
      intro old k hnd
      obtain ⟨k0, v0⟩ := p
      simp only [List.map_cons, List.nodup_cons] at hnd
      have hstep : dictMerge old ((k0, v0) :: rest) = dictMerge (dictSet old k0 v0) rest := rfl
      rw [hstep, ih (dictSet old k0 v0) k hnd.2, dictGet_cons]
      by_cases hk : k0 = k
      · subst hk
        have hrest : dictGet rest k0 = none :=
          dictGet_eq_none_of_not_mem rest k0 hnd.1
        rw [hrest, if_pos rfl]
        simp [dictGet_dictSet]
      · rw [if_neg hk]
        have hk2 : ¬(k = k0) := fun h => hk h.symm
        cases hr : dictGet rest k
        · simp [dictGet_dictSet, hk2]
        · simp

/-- C5 counterexample: upserting `{id: 1, title: "b"}` over the stored
record `{id: 1, title: "a", extra: "x"}` yields a record that still carries
the old field `extra: "x"`, which the new task does not have: `store_task`
merges fields (TinyDB `update` semantics) rather than replacing the record,
so the updated record's fields do NOT equal the new task's fields. -/
theorem c5_counterexample :
    store_task [exDoc] 2 exTask
      = some [⟨1, [("id", .vInt 1), ("title", .vStr "b"), ("extra", .vStr "x")]⟩] ∧
    dictGet [("id", .vInt 1), ("title", .vStr "b"), ("extra", .vStr "x")] "extra"
      = some (.vStr "x") ∧
    dictGet exTask "extra" = none := by
  decide

/-- C5 (amended): `store_task` is an upsert keyed by `id` that MERGES on
update.  If no record carries the task's id, the task is inserted verbatim
as a new record (blank or dedup-key-duplicate records it creates persist:
no normalization runs).  If records with that id exist, each of them keeps
its doc id and its fields become the TinyDB merge of the old fields with
the task: fields present in the task are overwritten, fields absent from
the task keep their old values — not a full replacement.  Records with
other ids are untouched. -/
theorem c5_store_task_upsert_merges (table : List Doc) (nid : Nat)
    (task : Dict) (idv : PyVal) (hid : dictGet task "id" = some idv)
    (hkeys : (task.map Prod.fst).Nodup) :
    (containsId table idv = false →
      store_task table nid task = some (table ++ [⟨nid, task⟩])) ∧
    (containsId table idv = true →
      ∃ r, store_task table nid task = some r ∧ r.length = table.length ∧
        ∀ i (hi : i < table.length) (hr : i < r.length),
          (idMatch idv table[i] = false → r[i] = table[i]) ∧
          (idMatch idv table[i] = true →
            r[i].docId = table[i].docId ∧
            ∀ k, dictGet r[i].fields k =
              match dictGet task k with
              | some v => some v
              | none => dictGet table[i].fields k)) := by
  constructor
  · intro hno
    unfold store_task
    rw [hid]
    simp [hno]
  · intro hyes
    refine ⟨table.map (fun d => if idMatch idv d then ⟨d.docId, dictMerge d.fields task⟩ else d),
      ?_, by simp, ?_⟩
    · unfold store_task
      rw [hid]
      simp [hyes]
    · intro i hi hr
      rw [List.getElem_map]
      by_cases hm : idMatch idv table[i] = true
      · refine ⟨fun hfalse => absurd hm (by simp [hfalse]), fun _ => ?_⟩
        rw [if_pos hm]
        exact ⟨rfl, fun k => dictGet_dictMerge task table[i].fields k hkeys⟩
      · refine ⟨fun _ => ?_, fun htrue => absurd htrue hm⟩
        rw [if_neg hm]

/-- Witness for C5 (amended): inserting the concrete task into an empty
store appends it verbatim as a new record. -/
theorem c5_store_task_upsert_merges_witness :
    store_task [] 7 exTask = some [⟨7, exTask⟩] :=
  (c5_store_task_upsert_merges [] 7 exTask (.vInt 1)
    (by decide) (by decide)).1 (by decide)

/-! ## String-order lemmas for the dedup comparison -/

/-- The code-point order is irreflexive. -/
theorem charListLt_irrefl (a : List Char) : charListLt a a = false := by
  induction a with
  | nil => rfl
  | cons c cs ih => simp [charListLt, lt_irrefl, ih]

/-- The code-point order is transitive. -/
theorem charListLt_trans :
    ∀ a b c : List Char, charListLt a b = true → charListLt b c = true →
      charListLt a c = true := by
  intro a
  induction a with
  | nil =>
      intro b c h1 h2
      cases b with
      | nil => exact h2
      | cons y bs =>
          cases c with
          | nil => simp [charListLt] at h2
          | cons z cs => rfl
  | cons x as ih =>
      intro b c h1 h2
      cases b with
      | nil => simp [charListLt] at h1
      | cons y bs =>
          cases c with
          | nil => simp [charListLt] at h2
          | cons z cs =>
              by_cases hxy : x < y
              · by_cases hyz : y < z
                · simp [charListLt, lt_trans hxy hyz]
                · by_cases hzy : z < y
                  · simp [charListLt, hyz, hzy] at h2
                  · have hy : y = z := le_antisymm (not_lt.mp hzy) (not_lt.mp hyz)
                    subst hy
                    simp [charListLt, hxy]
              · by_cases hyx : y < x
                · simp [charListLt, hxy, hyx] at h1
                · have hx : x = y := le_antisymm (not_lt.mp hyx) (not_lt.mp hxy)
                  subst hx
                  simp only [charListLt, lt_irrefl, if_false] at h1
                  by_cases hxz : x < z
                  · simp [charListLt, hxz]
                  · by_cases hzx : z < x
                    · simp [charListLt, hxz, hzx] at h2
                    · have hx2 : x = z := le_antisymm (not_lt.mp hzx) (not_lt.mp hxz)
                      subst hx2
                      simp only [charListLt, lt_irrefl, if_false] at h2 ⊢
                      exact ih bs cs h1 h2

/-- `strLe` is reflexive. -/
theorem strLe_refl (a : String) : strLe a a = true := by
  simp [strLe, strLt, charListLt_irrefl]

/-- `strLe a c` follows from `strLt a b` and `strLe b c`. -/
theorem strLe_of_lt_of_le {a b c : String} (hab : strLt a b = true)
    (hbc : strLe b c = true) : strLe a c = true := by
  simp only [strLe, Bool.not_eq_true'] at hbc ⊢
  cases hca : strLt c a with
  | false => rfl
  | true =>
      have := charListLt_trans c.data a.data b.data hca hab
      rw [show charListLt c.data b.data = strLt c b from rfl, hbc] at this
      exact this.symm

/-- `strLe b a` holds whenever `strLt a b` fails. -/
theorem strLe_of_not_lt {a b : String} (h : strLt a b = false) :
    strLe b a = true := by
  simp [strLe, h]

/-! ## Removal-loop characterizations -/

/-- The blank-purge loop removes from any accumulator exactly the docs
whose id coincides with a blank-titled doc of the iterated snapshot. -/
theorem blankPurge_foldl_eq (l : List Doc) :
    ∀ acc : List Doc,
      l.foldl
        (fun tbl t => if pyStrip (titleStr t) = "" then removeDocId tbl t.docId else tbl)
        acc
      = acc.filter
          (fun d => decide (∀ t ∈ l, pyStrip (titleStr t) = "" → d.docId ≠ t.docId)) := by
  induction l with
  | nil =>
      intro acc
      rw [List.foldl_nil]
      symm
      rw [List.filter_eq_self]
      intro d _
      simp
  | cons t l ih =>
      intro acc
      rw [List.foldl_cons]
      by_cases hb : pyStrip (titleStr t) = ""
      · rw [if_pos hb, ih]
        unfold removeDocId
        rw [List.filter_filter]
        apply List.filter_congr
        intro d _
        simp only [Bool.and_eq_true, decide_eq_true_eq, List.forall_mem_cons, hb,
          forall_const, true_implies]
        rw [show (decide (∀ t_1 ∈ l, pyStrip (titleStr t_1) = "" → ¬d.docId = t_1.docId)
              && decide (¬d.docId = t.docId))
            = decide ((∀ t_1 ∈ l, pyStrip (titleStr t_1) = "" → ¬d.docId = t_1.docId)
              ∧ ¬d.docId = t.docId) from by rw [Bool.decide_and]]
        rw [decide_eq_decide]
        constructor
        · exact fun h => ⟨h.2, h.1⟩
        · exact fun h => ⟨h.2, h.1⟩
      · rw [if_neg hb, ih]
        apply List.filter_congr
        intro d _
        rw [decide_eq_decide]
        constructor
        · intro h
          intro u hu
          rcases List.mem_cons.mp hu with rfl | hu2
          · intro hbu; exact absurd hbu hb
          · exact h u hu2
        · intro h u hu
          exact h u (List.mem_cons_of_mem t hu)

/-- The duplicate-removal loop filters out exactly the doc ids of the
duplicates list. -/
theorem removeAll_eq (ds : List Doc) :
    ∀ table : List Doc,
      removeAll table ds
        = table.filter (fun d => decide (∀ x ∈ ds, d.docId ≠ x.docId)) := by
  induction ds with
  | nil =>
      intro table
      unfold removeAll
      rw [List.foldl_nil]
      symm
      rw [List.filter_eq_self]
      intro d _
      simp
  | cons x ds ih =>
      intro table
      unfold removeAll at ih ⊢
      rw [List.foldl_cons, ih]
      unfold removeDocId
      rw [List.filter_filter]
      apply List.filter_congr
      intro d _
      rw [show (decide (∀ y ∈ ds, ¬d.docId = y.docId) && decide (¬d.docId = x.docId))
            = decide ((∀ y ∈ ds, ¬d.docId = y.docId) ∧ ¬d.docId = x.docId) from by
          rw [Bool.decide_and]]
      rw [decide_eq_decide, List.forall_mem_cons]
      constructor
      · exact fun h => ⟨h.2, h.1⟩
      · exact fun h => ⟨h.2, h.1⟩

/-- Any record surviving the blank purge has a non-blank trimmed title
(regardless of doc-id duplication). -/
theorem not_blank_of_mem_blankPurge {table : List Doc} {d : Doc}
    (h : d ∈ blankPurge table) : pyStrip (titleStr d) ≠ "" := by
  unfold blankPurge at h
  rw [blankPurge_foldl_eq] at h
  obtain ⟨hmem, hcond⟩ := List.mem_filter.mp h
  rw [decide_eq_true_eq] at hcond
  intro hb
  exact hcond d hmem hb rfl

/-- The blank purge yields a sublist of the table. -/
theorem blankPurge_sublist (table : List Doc) :
    (blankPurge table).Sublist table := by
  unfold blankPurge
  rw [blankPurge_foldl_eq]
  exact List.filter_sublist table

/-- With unique doc ids, the blank purge is exactly the filter keeping
non-blank titles. -/
theorem blankPurge_eq_filter (table : List Doc) (h : NodupIds table) :
    blankPurge table
      = table.filter (fun d => decide (pyStrip (titleStr d) ≠ "")) := by
  unfold blankPurge
  rw [blankPurge_foldl_eq]
  apply List.filter_congr
  intro d hd
  rw [decide_eq_decide]
  constructor
  · intro hall hb
    exact hall d hd hb rfl
  · intro hnb t ht hbt heq
    exact hnb (List.inj_on_of_nodup_map h hd ht heq ▸ hbt)

/-- Sublists inherit doc-id uniqueness. -/
theorem nodupIds_of_sublist {l1 l2 : List Doc} (hs : l1.Sublist l2)
    (h : NodupIds l2) : NodupIds l1 :=
  (hs.map Doc.docId).nodup h

/-! ## Dedup-scan invariant -/

/-- A successful `find?` splits the list at the first hit. -/
theorem find?_split {α : Type} (p : α → Bool) :
    ∀ (l : List α) (a : α), l.find? p = some a →
      ∃ l1 l2, l = l1 ++ a :: l2 ∧ ∀ x ∈ l1, p x = false := by
  intro l
  induction l with
  | nil => intro a h; simp at h
  | cons x xs ih =>
      intro a h
      by_cases hx : p x = true
      · rw [List.find?_cons_of_pos _ hx] at h
        obtain rfl : x = a := by injection h
        exact ⟨[], xs, rfl, by simp⟩
      · rw [List.find?_cons_of_neg _ hx] at h
        obtain ⟨l1, l2, hsplit, hl1⟩ := ih a h
        refine ⟨x :: l1, l2, by rw [hsplit]; rfl, ?_⟩
        intro y hy
        rcases List.mem_cons.mp hy with rfl | hy2
        · cases hpx : p y
          · rfl
          · exact absurd hpx hx
        · exact hl1 y hy2

/-- Replacing the unique entry with key `k` in the seen dict rewrites it in
place and leaves every other entry unchanged. -/
theorem map_replace_split (l1 l2 : List ((String × PyVal) × Doc))
    (k : String × PyVal) (e : Doc) (t : Doc)
    (h1 : ∀ q ∈ l1, q.1 ≠ k) (h2 : ∀ q ∈ l2, q.1 ≠ k) :
    (l1 ++ (k, e) :: l2).map (fun q => if q.1 = k then (k, t) else q)
      = l1 ++ (k, t) :: l2 := by
  rw [List.map_append, List.map_cons]
  have e1 : l1.map (fun q => if q.1 = k then (k, t) else q) = l1 := by
    rw [show l1 = l1.map id from (List.map_id l1).symm]
    rw [List.map_map]
    apply List.map_congr_left
    intro q hq
    simp [if_neg (h1 q (by simpa using hq))]
  have e2 : l2.map (fun q => if q.1 = k then (k, t) else q) = l2 := by
    rw [show l2 = l2.map id from (List.map_id l2).symm]
    rw [List.map_map]
    apply List.map_congr_left
    intro q hq
    simp [if_neg (h2 q (by simpa using hq))]
  rw [e1, e2, if_pos rfl]

/-- One dedup-loop iteration preserves the scan invariant. -/
theorem scanInv_step (processed : List Doc) (t : Doc) (st : ScanState)
    (h : ScanInv processed st) : ScanInv (processed ++ [t]) (dedupStep st t) := by
  obtain ⟨seen, dups⟩ := st
  unfold dedupStep
  cases hfind : seen.find? (fun p => p.1 = dkey t) with
  | none =>
      have hnone : ∀ p ∈ seen, p.1 ≠ dkey t := by
        intro p hp
        have := List.find?_eq_none.mp hfind p hp
        simpa using this
      refine ⟨?_, ?_, ?_, ?_, ?_⟩
      · show ((seen ++ [(dkey t, t)]).map Prod.snd ++ dups).Perm (processed ++ [t])
        rw [List.map_append, List.map_cons, List.map_nil]
        refine List.Perm.trans ?_ (h.perm.append_right [t])
        show ((seen.map Prod.snd ++ [t]) ++ dups).Perm ((seenDocs (seen, dups) ++ dups) ++ [t])
        unfold seenDocs
        rw [List.append_assoc, List.append_assoc]
        exact List.Perm.append_left _ List.perm_append_comm
      · intro p hp
        rcases List.mem_append.mp hp with hp1 | hp2
        · exact h.keyOf p hp1
        · rw [List.mem_singleton] at hp2
          subst hp2
          rfl
      · show ((seen ++ [(dkey t, t)]).map Prod.fst).Nodup
        rw [List.map_append, List.map_cons, List.map_nil, List.nodup_append]
        refine ⟨h.keysNodup, List.nodup_singleton _, ?_⟩
        intro a ha hb
        rw [List.mem_singleton] at hb
        subst hb
        obtain ⟨q, hq, hqk⟩ := List.mem_map.mp ha
        exact hnone q hq hqk
      · intro u hu
        rcases List.mem_append.mp hu with hu1 | hu2
        · obtain ⟨p, hp, he⟩ := h.covers u hu1
          exact ⟨p, List.mem_append_left _ hp, he⟩
        · rw [List.mem_singleton] at hu2
          rw [hu2]
          exact ⟨(dkey t, t), List.mem_append_right _ (List.mem_singleton_self _), rfl⟩
      · intro q hq hall u hu hk
        rcases List.mem_append.mp hq with hq1 | hq2
        · have hqk : q.1 ≠ dkey t := hnone q hq1
          rcases List.mem_append.mp hu with hu1 | hu2
          · refine h.minCr q hq1 ?_ u hu1 hk
            intro w hw hwk
            exact hall w (List.mem_append_left _ hw) hwk
          · rw [List.mem_singleton] at hu2
            rw [hu2] at hk
            exact absurd hk (fun hh => hqk hh.symm)
        · rw [List.mem_singleton] at hq2
          subst hq2
          rcases List.mem_append.mp hu with hu1 | hu2
          · obtain ⟨p, hp, hpk⟩ := h.covers u hu1
            exact absurd (hpk.trans hk) (hnone p hp)
          · rw [List.mem_singleton] at hu2
            rw [hu2]
            exact strLe_refl _
  | some p =>
      have hp1 : p.1 = dkey t := by simpa using List.find?_some hfind
      have hpmem : p ∈ seen := List.mem_of_find?_eq_some hfind
      have he_mem : p.2 ∈ processed := by
        refine (h.perm.mem_iff).mp ?_
        exact List.mem_append_left _ (List.mem_map_of_mem Prod.snd hpmem)
      have hkey_e : dkey p.2 = p.1 := h.keyOf p hpmem
      have hdropcase :
          (strLt (createdStr t) (createdStr p.2) = false ∨
            ¬(createdStr t ≠ "" ∧ createdStr p.2 ≠ "")) →
          ScanInv (processed ++ [t]) (seen, dups ++ [t]) := by
        intro hbr
        refine ⟨?_, h.keyOf, h.keysNodup, ?_, ?_⟩
        · show (seenDocs (seen, dups ++ [t]) ++ (dups ++ [t])).Perm (processed ++ [t])
          show (seen.map Prod.snd ++ (dups ++ [t])).Perm (processed ++ [t])
          rw [← List.append_assoc]
          exact h.perm.append_right [t]
        · intro u hu
          rcases List.mem_append.mp hu with hu1 | hu2
          · exact h.covers u hu1
          · rw [List.mem_singleton] at hu2
            rw [hu2]
            exact ⟨p, hpmem, hp1⟩
        · intro q hq hall u hu hk
          by_cases hqk : q.1 = dkey t
          · have hqp : q = p :=
              List.inj_on_of_nodup_map h.keysNodup hq hpmem (by rw [hqk, hp1])
            rcases List.mem_append.mp hu with hu1 | hu2
            · refine h.minCr q hq ?_ u hu1 hk
              intro w hw hwk
              exact hall w (List.mem_append_left _ hw) hwk
            · rw [List.mem_singleton] at hu2
              rw [hu2] at hk ⊢
              have hct : createdStr t ≠ "" :=
                hall t (List.mem_append_right _ (List.mem_singleton_self _)) hk
              have hce : createdStr q.2 ≠ "" := by
                refine hall q.2 (List.mem_append_left _ ?_) ?_
                · rw [hqp]; exact he_mem
                · rw [hqp, hkey_e, hp1, ← hqk]
              rcases hbr with hlt_false | hc_false
              · rw [hqp]
                exact strLe_of_not_lt hlt_false
              · exact absurd ⟨hct, by rw [← hqp]; exact hce⟩ hc_false
          · rcases List.mem_append.mp hu with hu1 | hu2
            · refine h.minCr q hq ?_ u hu1 hk
              intro w hw hwk
              exact hall w (List.mem_append_left _ hw) hwk
            · rw [List.mem_singleton] at hu2
              subst hu2
              exact absurd hk (fun hh => hqk hh.symm)
      show ScanInv (processed ++ [t])
        (if createdStr t ≠ "" ∧ createdStr p.2 ≠ "" then
          if strLt (createdStr t) (createdStr p.2) = true then
            (seen.map (fun q => if q.1 = dkey t then (dkey t, t) else q),
              dups ++ [p.2])
          else (seen, dups ++ [t])
        else (seen, dups ++ [t]))
      by_cases hc : createdStr t ≠ "" ∧ createdStr p.2 ≠ ""
      · by_cases hlt : strLt (createdStr t) (createdStr p.2) = true
        · rw [if_pos hc, if_pos hlt]
          -- the swap branch
          obtain ⟨l1, l2, hsp, hl1⟩ := find?_split _ seen p hfind
          have hl1p : ∀ q ∈ l1, q.1 ≠ dkey t := by
            intro q hq
            have := hl1 q hq
            simpa using this
          have hsp2 : seen = l1 ++ (dkey t, p.2) :: l2 := by
            rw [hsp, ← hp1]
          have hl2p : ∀ q ∈ l2, q.1 ≠ dkey t := by
            have hnd := h.keysNodup
            rw [hsp2, List.map_append, List.map_cons] at hnd
            rw [List.nodup_middle, List.nodup_cons] at hnd
            intro q hq hqk
            refine hnd.1 (List.mem_append_right _ ?_)
            show dkey t ∈ List.map Prod.fst l2
            rw [← hqk]
            exact List.mem_map_of_mem Prod.fst hq
          have hrep : seen.map (fun q => if q.1 = dkey t then (dkey t, t) else q)
              = l1 ++ (dkey t, t) :: l2 := by
            rw [hsp2]
            exact map_replace_split l1 l2 (dkey t) p.2 t hl1p hl2p
          rw [hrep]
          have hsd : seen.map Prod.snd
              = l1.map Prod.snd ++ p.2 :: l2.map Prod.snd := by
            rw [hsp2, List.map_append, List.map_cons]
          refine ⟨?_, ?_, ?_, ?_, ?_⟩
          · show ((l1 ++ (dkey t, t) :: l2).map Prod.snd ++ (dups ++ [p.2])).Perm
              (processed ++ [t])
            rw [List.map_append, List.map_cons]
            have hstep1 :
                ((l1.map Prod.snd ++ t :: l2.map Prod.snd) ++ (dups ++ [p.2])).Perm
                  (t :: ((l1.map Prod.snd ++ l2.map Prod.snd) ++ (dups ++ [p.2]))) := by
              refine List.Perm.append_right _ List.perm_middle
            have hstep2 :
                ((l1.map Prod.snd ++ l2.map Prod.snd) ++ (dups ++ [p.2])).Perm
                  (p.2 :: ((l1.map Prod.snd ++ l2.map Prod.snd) ++ dups)) := by
              rw [← List.append_assoc]
              exact List.perm_append_singleton _ _
            have hstep3 : (processed ++ [t]).Perm (t :: processed) :=
              List.perm_append_singleton _ _
            have hstep4 : processed.Perm
                (p.2 :: ((l1.map Prod.snd ++ l2.map Prod.snd) ++ dups)) := by
              refine List.Perm.trans h.perm.symm ?_
              show ((seenDocs (seen, dups)) ++ dups).Perm _
              show ((seen.map Prod.snd) ++ dups).Perm _
              rw [hsd]
              refine List.Perm.trans (List.Perm.append_right dups List.perm_middle) ?_
              rw [List.cons_append]
            refine hstep1.trans ?_
            refine List.Perm.trans (List.Perm.cons t hstep2) ?_
            refine List.Perm.trans ?_ hstep3.symm
            exact List.Perm.cons t hstep4.symm
          · intro q hq
            rcases List.mem_append.mp hq with hq1 | hq2
            · exact h.keyOf q (by rw [hsp2]; exact List.mem_append_left _ hq1)
            · rcases List.mem_cons.mp hq2 with rfl | hq3
              · rfl
              · exact h.keyOf q
                  (by rw [hsp2]
                      exact List.mem_append_right _ (List.mem_cons_of_mem _ hq3))
          · show ((l1 ++ (dkey t, t) :: l2).map Prod.fst).Nodup
            have : (l1 ++ (dkey t, t) :: l2).map Prod.fst = seen.map Prod.fst := by
              rw [hsp2, List.map_append, List.map_cons, List.map_append, List.map_cons]
            rw [this]
            exact h.keysNodup
          · intro u hu
            rcases List.mem_append.mp hu with hu1 | hu2
            · obtain ⟨q, hq, hqk⟩ := h.covers u hu1
              rw [hsp2] at hq
              rcases List.mem_append.mp hq with hq1 | hq2
              · exact ⟨q, List.mem_append_left _ hq1, hqk⟩
              · rcases List.mem_cons.mp hq2 with rfl | hq3
                · exact ⟨(dkey t, t), List.mem_append_right _ (List.mem_cons_self _ _), hqk⟩
                · exact ⟨q, List.mem_append_right _ (List.mem_cons_of_mem _ hq3), hqk⟩
            · rw [List.mem_singleton] at hu2
              rw [hu2]
              exact ⟨(dkey t, t), List.mem_append_right _ (List.mem_cons_self _ _), rfl⟩
          · intro q hq hall u hu hk
            by_cases hqk : q.1 = dkey t
            · have hq_eq : q = (dkey t, t) := by
                rcases List.mem_append.mp hq with hq1 | hq2
                · exact absurd hqk (hl1p q hq1)
                · rcases List.mem_cons.mp hq2 with rfl | hq3
                  · rfl
                  · exact absurd hqk (hl2p q hq3)
              subst hq_eq
              have hmin_e := h.minCr p hpmem (by
                intro w hw hwk
                refine hall w (List.mem_append_left _ hw) ?_
                rw [hwk, hp1])
              rcases List.mem_append.mp hu with hu1 | hu2
              · have hk2 : dkey u = p.1 := by rw [hp1]; exact hk
                exact strLe_of_lt_of_le hlt (hmin_e u hu1 hk2)
              · rw [List.mem_singleton] at hu2
                rw [hu2]
                exact strLe_refl _
            · have hq_old : q ∈ seen := by
                rw [hsp2]
                rcases List.mem_append.mp hq with hq1 | hq2
                · exact List.mem_append_left _ hq1
                · rcases List.mem_cons.mp hq2 with rfl | hq3
                  · exact absurd rfl hqk
                  · exact List.mem_append_right _ (List.mem_cons_of_mem _ hq3)
              rcases List.mem_append.mp hu with hu1 | hu2
              · refine h.minCr q hq_old ?_ u hu1 hk
                intro w hw hwk
                exact hall w (List.mem_append_left _ hw) hwk
              · rw [List.mem_singleton] at hu2
                rw [hu2] at hk
                exact absurd hk (fun hh => hqk hh.symm)
        · rw [if_pos hc, if_neg hlt]
          exact hdropcase (Or.inl (by simpa using hlt))
      · rw [if_neg hc]
        exact hdropcase (Or.inr hc)

/-- The scan invariant holds along the whole fold. -/
theorem scanInv_foldl (l : List Doc) :
    ∀ (processed : List Doc) (st : ScanState), ScanInv processed st →
      ScanInv (processed ++ l) (l.foldl dedupStep st) := by
  induction l with
  | nil =>
      intro processed st h
      simpa using h
  | cons t l ih =>
      intro processed st h
      rw [List.foldl_cons,
        show processed ++ t :: l = (processed ++ [t]) ++ l from by simp]
      exact ih _ _ (scanInv_step processed t st h)

/-- The scan invariant holds of the dedup scan of any task list. -/
theorem scanInv_dedupScan (ts : List Doc) : ScanInv ts (dedupScan ts) := by
  have h0 : ScanInv [] ([], []) := by
    refine ⟨?_, ?_, ?_, ?_, ?_⟩ <;> simp [seenDocs]
  have := scanInv_foldl ts [] ([], []) h0
  simpa [dedupScan] using this

/-! ## Characterization of the kept records -/

/-- A list with pairwise-equal members under a Nodup hypothesis has at most
one element. -/
theorem length_le_one_of_unique {α : Type} (l : List α) (hn : l.Nodup)
    (hall : ∀ a ∈ l, ∀ b ∈ l, a = b) : l.length ≤ 1 := by
  cases l with
  | nil => simp
  | cons a t =>
      cases t with
      | nil => simp
      | cons b t2 =>
          exfalso
          rw [List.nodup_cons] at hn
          have hab : a = b := hall a (List.mem_cons_self _ _)
            b (List.mem_cons_of_mem _ (List.mem_cons_self _ _))
          exact hn.1 (hab ▸ List.mem_cons_self _ _)

/-- With unique doc ids, the records surviving `cleanup_on_startup` are
exactly the values of the scan's `seen` dict. -/
theorem kept_mem_iff (ts : List Doc) (h : NodupIds ts) (d : Doc) :
    d ∈ removeAll ts (dedupScan ts).2 ↔ d ∈ seenDocs (dedupScan ts) := by
  have hinv := scanInv_dedupScan ts
  have hnodup : ts.Nodup := List.Nodup.of_map Doc.docId h
  have hnd2 : (seenDocs (dedupScan ts) ++ (dedupScan ts).2).Nodup :=
    hinv.perm.symm.nodup hnodup
  rw [removeAll_eq, List.mem_filter]
  constructor
  · rintro ⟨hmem, hcond⟩
    rw [decide_eq_true_eq] at hcond
    have hd2 : d ∈ seenDocs (dedupScan ts) ++ (dedupScan ts).2 :=
      hinv.perm.mem_iff.mpr hmem
    rcases List.mem_append.mp hd2 with hsd | hdup
    · exact hsd
    · exact absurd rfl (hcond d hdup)
  · intro hsd
    refine ⟨hinv.perm.mem_iff.mp (List.mem_append_left _ hsd), ?_⟩
    rw [decide_eq_true_eq]
    intro x hx heq
    have hx_ts : x ∈ ts := hinv.perm.mem_iff.mp (List.mem_append_right _ hx)
    have hd_ts : d ∈ ts := hinv.perm.mem_iff.mp (List.mem_append_left _ hsd)
    have hdx : d = x := List.inj_on_of_nodup_map h hd_ts hx_ts heq
    subst hdx
    rw [List.nodup_append] at hnd2
    exact hnd2.2.2 hsd hx

/-- Two seen-dict values with equal dedup keys coincide. -/
theorem seenDocs_key_unique (ts : List Doc) :
    ∀ a ∈ seenDocs (dedupScan ts), ∀ b ∈ seenDocs (dedupScan ts),
      dkey a = dkey b → a = b := by
  have hinv := scanInv_dedupScan ts
  intro a ha b hb hk
  obtain ⟨pa, hpa, rfl⟩ := List.mem_map.mp ha
  obtain ⟨pb, hpb, rfl⟩ := List.mem_map.mp hb
  have h1 : pa.1 = pb.1 := by
    rw [← hinv.keyOf pa hpa, ← hinv.keyOf pb hpb]
    exact hk
  rw [List.inj_on_of_nodup_map hinv.keysNodup hpa hpb h1]

/-- Membership in the cleanup output, via the seen dict. -/
theorem mem_cleanup_iff (table : List Doc) (h : NodupIds table) (d : Doc) :
    d ∈ cleanup_on_startup table ↔
      d ∈ seenDocs (dedupScan (blankPurge table)) :=
  kept_mem_iff (blankPurge table)
    (nodupIds_of_sublist (blankPurge_sublist table) h) d

/-- Every record kept by `cleanup_on_startup` has a non-blank trimmed
title (no doc-id hypothesis needed). -/
theorem cleanup_not_blank {table : List Doc} {d : Doc}
    (hd : d ∈ cleanup_on_startup table) : pyStrip (titleStr d) ≠ "" := by
  unfold cleanup_on_startup at hd
  rw [removeAll_eq] at hd
  exact not_blank_of_mem_blankPurge (List.mem_filter.mp hd).1

/-- The cleanup output is a sublist of the purged table. -/
theorem cleanup_sublist_blankPurge (table : List Doc) :
    (cleanup_on_startup table).Sublist (blankPurge table) := by
  unfold cleanup_on_startup
  rw [removeAll_eq]
  exact List.filter_sublist _

/-- The cleanup output is a sublist of the table. -/
theorem cleanup_sublist (table : List Doc) :
    (cleanup_on_startup table).Sublist table :=
  (cleanup_sublist_blankPurge table).trans (blankPurge_sublist table)

/-- With unique doc ids, kept records have pairwise distinct dedup keys. -/
theorem cleanup_keys_pairwise (table : List Doc) (h : NodupIds table) :
    List.Pairwise (fun a b => dkey a ≠ dkey b) (cleanup_on_startup table) := by
  have hn : (cleanup_on_startup table).Nodup :=
    (cleanup_sublist table).nodup (List.Nodup.of_map Doc.docId h)
  refine List.Pairwise.imp_of_mem ?_ hn
  intro a b ha hb hne hkeq
  exact hne (seenDocs_key_unique (blankPurge table)
    a ((mem_cleanup_iff table h a).mp ha)
    b ((mem_cleanup_iff table h b).mp hb) hkeq)

/-! ## Idempotence ingredients -/

/-- The blank purge leaves a table with no blank titles unchanged. -/
theorem blankPurge_id (l : List Doc)
    (hb : ∀ d ∈ l, pyStrip (titleStr d) ≠ "") : blankPurge l = l := by
  unfold blankPurge
  rw [blankPurge_foldl_eq, List.filter_eq_self]
  intro d hd
  rw [decide_eq_true_eq]
  intro t ht hbt
  exact absurd hbt (hb t ht)

/-- Scanning a list of pairwise-distinct dedup keys registers every record
as fresh and finds no duplicates. -/
theorem dedupScan_aux_distinct (l : List Doc) :
    ∀ (seen : List ((String × PyVal) × Doc)) (dups : List Doc),
      (∀ u ∈ l, ∀ q ∈ seen, q.1 ≠ dkey u) →
      List.Pairwise (fun a b => dkey a ≠ dkey b) l →
      l.foldl dedupStep (seen, dups)
        = (seen ++ l.map (fun t => (dkey t, t)), dups) := by
  induction l with
  | nil =>
      intro seen dups _ _
      simp
  | cons t l ih =>
      intro seen dups hfresh hp
      rw [List.foldl_cons]
      have hfind : seen.find? (fun p => p.1 = dkey t) = none := by
        rw [List.find?_eq_none]
        intro q hq
        simpa using hfresh t (List.mem_cons_self _ _) q hq
      have hstep : dedupStep (seen, dups) t = (seen ++ [(dkey t, t)], dups) := by
        unfold dedupStep
        rw [hfind]
      rw [hstep]
      rw [List.pairwise_cons] at hp
      rw [ih (seen ++ [(dkey t, t)]) dups ?_ hp.2]
      · simp
      · intro u hu q hq
        rcases List.mem_append.mp hq with hq1 | hq2
        · exact hfresh u (List.mem_cons_of_mem _ hu) q hq1
        · rw [List.mem_singleton] at hq2
          subst hq2
          exact hp.1 u hu

/-- The duplicates list of a scan over pairwise-distinct keys is empty. -/
theorem dedupScan_dups_nil (l : List Doc)
    (hp : List.Pairwise (fun a b => dkey a ≠ dkey b) l) :
    (dedupScan l).2 = [] := by
  unfold dedupScan
  rw [dedupScan_aux_distinct l [] [] (by simp) hp]

/-- Cleanup of an already-clean table (no blanks, distinct keys) is the
identity. -/
theorem cleanup_of_clean (l : List Doc)
    (hb : ∀ d ∈ l, pyStrip (titleStr d) ≠ "")
    (hp : List.Pairwise (fun a b => dkey a ≠ dkey b) l) :
    cleanup_on_startup l = l := by
  unfold cleanup_on_startup
  rw [blankPurge_id l hb, dedupScan_dups_nil l hp]
  rfl

/-! ## Duplicate-resolution ingredients -/

/-- With unique doc ids, every dedup key occurring in the purged table has
exactly one representative in the cleanup output. -/
theorem cleanup_count_key (table : List Doc) (h : NodupIds table)
    (u : Doc) (hu : u ∈ blankPurge table) :
    ((cleanup_on_startup table).filter
      (fun d => decide (dkey d = dkey u))).length = 1 := by
  have hinv := scanInv_dedupScan (blankPurge table)
  obtain ⟨p, hp, hpk⟩ := hinv.covers u hu
  have hmem_sd : p.2 ∈ seenDocs (dedupScan (blankPurge table)) :=
    List.mem_map_of_mem Prod.snd hp
  have hmem_clean : p.2 ∈ cleanup_on_startup table :=
    (mem_cleanup_iff table h p.2).mpr hmem_sd
  have hkp : dkey p.2 = dkey u := by rw [hinv.keyOf p hp, hpk]
  have hmem_f : p.2 ∈ (cleanup_on_startup table).filter
      (fun d => decide (dkey d = dkey u)) :=
    List.mem_filter.mpr ⟨hmem_clean, by rw [decide_eq_true_eq]; exact hkp⟩
  have hnf : ((cleanup_on_startup table).filter
      (fun d => decide (dkey d = dkey u))).Nodup :=
    List.Nodup.filter _ ((cleanup_sublist table).nodup (List.Nodup.of_map Doc.docId h))
  have hle : ((cleanup_on_startup table).filter
      (fun d => decide (dkey d = dkey u))).length ≤ 1 := by
    refine length_le_one_of_unique _ hnf ?_
    intro a ha b hb
    obtain ⟨ha1, ha2⟩ := List.mem_filter.mp ha
    obtain ⟨hb1, hb2⟩ := List.mem_filter.mp hb
    rw [decide_eq_true_eq] at ha2 hb2
    exact seenDocs_key_unique (blankPurge table)
      a ((mem_cleanup_iff table h a).mp ha1)
      b ((mem_cleanup_iff table h b).mp hb1) (ha2.trans hb2.symm)
  have hge : 0 < ((cleanup_on_startup table).filter
      (fun d => decide (dkey d = dkey u))).length :=
    List.length_pos_of_mem hmem_f
  omega

/-- When every record of a dedup group carries a `created_at`, the kept
record of the group has the earliest one. -/
theorem cleanup_min_created (table : List Doc) (h : NodupIds table)
    (u : Doc) (hall : ∀ v ∈ blankPurge table, dkey v = dkey u → createdStr v ≠ "")
    (d : Doc) (hd : d ∈ cleanup_on_startup table) (hdk : dkey d = dkey u)
    (v : Doc) (hv : v ∈ blankPurge table) (hvk : dkey v = dkey u) :
    strLe (createdStr d) (createdStr v) = true := by
  have hinv := scanInv_dedupScan (blankPurge table)
  have hsd : d ∈ seenDocs (dedupScan (blankPurge table)) :=
    (mem_cleanup_iff table h d).mp hd
  obtain ⟨p, hp, rfl⟩ := List.mem_map.mp hsd
  have hp1 : p.1 = dkey u := by
    rw [← hinv.keyOf p hp]
    exact hdk
  refine hinv.minCr p hp ?_ v hv (by rw [hvk, hp1])
  intro w hw hwk
  exact hall w hw (by rw [← hp1]; exact hwk)

/-- A two-record group in which at least one side lacks `created_at` keeps
the first record in stored order. -/
theorem cleanup_pair_first_kept (a b : Doc) (hid : a.docId ≠ b.docId)
    (hk : dkey a = dkey b)
    (hna : pyStrip (titleStr a) ≠ "") (hnb : pyStrip (titleStr b) ≠ "")
    (hmiss : createdStr a = "" ∨ createdStr b = "") :
    cleanup_on_startup [a, b] = [a] := by
  have hbp : blankPurge [a, b] = [a, b] := by
    unfold blankPurge
    rw [List.foldl_cons, if_neg hna, List.foldl_cons, if_neg hnb, List.foldl_nil]
  unfold cleanup_on_startup
  rw [hbp]
  have h1 : dedupStep ([], []) a = ([(dkey a, a)], []) := rfl
  have h2 : dedupStep ([(dkey a, a)], []) b = ([(dkey a, a)], [b]) := by
    rcases hmiss with hm | hm
    · simp [dedupStep, List.find?_cons, hk, hm]
    · simp [dedupStep, List.find?_cons, hk, hm]
  have hscan : dedupScan [a, b] = ([(dkey a, a)], [b]) := by
    unfold dedupScan
    rw [List.foldl_cons, h1, List.foldl_cons, h2, List.foldl_nil]
  rw [hscan]
  unfold removeAll
  rw [List.foldl_cons, List.foldl_nil]
  unfold removeDocId
  simp [hid]

/-! ## Claim theorems: store normalization -/

/-- C4: duplicate resolution.  With unique doc ids, (1) after normalization
every dedup key present in the purged record set has exactly one kept
record; (2) when every record of a dedup group carries a `created_at`, the
kept record has the (code-point lexicographically) earliest one; (3) in a
two-record group where either side lacks `created_at`, the first record in
stored order is kept; (4) concretely, of the spec's two records
`{title:"Buy milk", due:"2025-01-01", created_at:"t1"}` and
`{title:"buy milk ", due:"2025-01-01", created_at:"t0"}`, normalization
keeps the second (earlier `created_at`) and removes the first — the scan
iterates the stored record sequence, not host map order. -/
theorem c4_duplicate_resolution (table : List Doc) (h : NodupIds table) :
    (∀ u ∈ blankPurge table,
      ((cleanup_on_startup table).filter
        (fun d => decide (dkey d = dkey u))).length = 1) ∧
    (∀ u ∈ blankPurge table,
      (∀ v ∈ blankPurge table, dkey v = dkey u → createdStr v ≠ "") →
      ∀ d ∈ cleanup_on_startup table, dkey d = dkey u →
        ∀ v ∈ blankPurge table, dkey v = dkey u →
          strLe (createdStr d) (createdStr v) = true) ∧
    (∀ a b : Doc, a.docId ≠ b.docId → dkey a = dkey b →
      pyStrip (titleStr a) ≠ "" → pyStrip (titleStr b) ≠ "" →
      (createdStr a = "" ∨ createdStr b = "") →
      cleanup_on_startup [a, b] = [a]) ∧
    cleanup_on_startup [milkT1, milkT0] = [milkT0] := by
  refine ⟨fun u hu => cleanup_count_key table h u hu,
    fun u _ hall d hd hdk v hv hvk =>
      cleanup_min_created table h u hall d hd hdk v hv hvk,
    fun a b hid hk hna hnb hmiss =>
      cleanup_pair_first_kept a b hid hk hna hnb hmiss,
    by decide⟩

/-- Witness for C4: at the spec's concrete two-record set the theorem's
hypothesis holds and the second record is kept. -/
theorem c4_duplicate_resolution_witness :
    cleanup_on_startup [milkT1, milkT0] = [milkT0] :=
  (c4_duplicate_resolution [milkT1, milkT0] (by unfold NodupIds; decide)).2.2.2

/-- C8: idempotence of normalization.  With unique doc ids, running
`cleanup_on_startup` twice gives the same record set as running it once:
one pass leaves no blank title and no two records sharing a dedup key, so
the second pass removes nothing. -/
theorem c8_cleanup_idempotent (table : List Doc) (h : NodupIds table) :
    cleanup_on_startup (cleanup_on_startup table) = cleanup_on_startup table :=
  cleanup_of_clean _ (fun _ hd => cleanup_not_blank hd)
    (cleanup_keys_pairwise table h)

/-- Witness for C8: idempotence at a concrete table containing a blank
record and a duplicate pair. -/
theorem c8_cleanup_idempotent_witness :
    cleanup_on_startup (cleanup_on_startup [milkT1, milkT0, blankEmpty])
      = cleanup_on_startup [milkT1, milkT0, blankEmpty] :=
  c8_cleanup_idempotent [milkT1, milkT0, blankEmpty] (by unfold NodupIds; decide)

/-- C9: blank purge.  No record kept by normalization has a blank trimmed
title (for any table, with no side condition), and concretely a record
with title `""`, one with `"   "` and one with no title at all are all
removed while a titled record survives. -/
theorem c9_blank_purge :
    (∀ (table : List Doc) (d : Doc), d ∈ cleanup_on_startup table →
      pyStrip (titleStr d) ≠ "") ∧
    cleanup_on_startup [blankEmpty, blankSpaces, noTitle, okTask] = [okTask] :=
  ⟨fun _ _ hd => cleanup_not_blank hd, by decide⟩

/-- Witness for C9: the surviving record of the concrete table indeed has a
non-blank title. -/
theorem c9_blank_purge_witness : pyStrip (titleStr okTask) ≠ "" :=
  c9_blank_purge.1 [okTask] okTask (by decide)
